import Mathlib

/-!
# CHIP-8 emulator (src/chip8.c): shallow embedding and verified properties

The machine object `chip8_t` is embedded as a record.  C arrays are address-indexed
maps (`Nat → Nat`, `Nat → Bool`); machine integers are natural numbers, with the C
conversion to the destination width (`% 256` for `uint8_t`, `% 65536` for `uint16_t`)
written out at every assignment.  A read outside `ram[RAM_SIZE]` is undefined behaviour
in C and is embedded as the result `none`.

The embedding is of the program as compiled without `-DDEBUG`: the `#ifdef DEBUG`
blocks (`print_debug_info` and its call in `emulate_instruction`) are then not part of
the program.
-/

namespace Chip8

/-! ## Constants -/

/-- Source: `#define RAM_SIZE 4096`. -/
def RAM_SIZE : Nat := 4096

/-- Source: `#define ROM_START_ADDRESS 0x200`. -/
def ROM_START_ADDRESS : Nat := 0x200

/-- Source: `#define ROM_MAX_SIZE (RAM_SIZE - ROM_START_ADDRESS)`. -/
def ROM_MAX_SIZE : Nat := RAM_SIZE - ROM_START_ADDRESS

/-! ## Data model -/

/-- Source: `emulator_state_t`; the enumerators have the values 0, 1, 2 in this order. -/
inductive emulator_state_t where
  | STATE_QUIT
  | STATE_RUNNING
  | STATE_PAUSE
  deriving DecidableEq

open emulator_state_t

/-- Source: `chip8_instruction_t`, the decoded instruction. -/
structure chip8_instruction_t where
  /-- Field `uint16_t opcode`. -/
  opcode : Nat
  /-- Field `uint16_t NNN`, 12 bit address/constant. -/
  NNN : Nat
  /-- Field `uint8_t NN`, 8 bit constant. -/
  NN : Nat
  /-- Field `uint8_t N`, 4 bit constant. -/
  N : Nat
  /-- Field `uint8_t X`, 4 bit register identifier. -/
  X : Nat
  /-- Field `uint8_t Y`, 4 bit register identifier. -/
  Y : Nat
  deriving DecidableEq

/-- Source: `chip8_t`, the machine object. -/
structure chip8_t where
  /-- Field `emulator_state_t state`. -/
  state : emulator_state_t
  /-- Field `uint8_t ram[RAM_SIZE]`, as a map from address to byte. -/
  ram : Nat → Nat
  /-- Field `bool display[64*32]`. -/
  display : Nat → Bool
  /-- Field `uint16_t stack[12]`. -/
  stack : Nat → Nat
  /-- Field `uint16_t stack_ptr`. -/
  stack_ptr : Nat
  /-- Field `uint8_t V[16]`. -/
  V : Nat → Nat
  /-- Field `uint16_t I`. -/
  I : Nat
  /-- Field `uint16_t PC`. -/
  PC : Nat
  /-- Field `uint8_t delay_timer`. -/
  delay_timer : Nat
  /-- Field `uint8_t sound_timer`. -/
  sound_timer : Nat
  /-- Field `bool keypad[16]`. -/
  keypad : Nat → Bool
  /-- Field `const char *rom_name`. -/
  rom_name : String
  /-- Field `chip8_instruction_t inst`. -/
  inst : chip8_instruction_t

/-- Every cell of `ram` holds a `uint8_t` value. -/
def ram_bytes (chip8 : chip8_t) : Prop :=
  ∀ a, a < RAM_SIZE → chip8.ram a < 256

/-! ## emulate_instruction -/

/-- The expression `(chip8->ram[chip8->PC] << 8) | chip8->ram[chip8->PC+1]` converted to
`uint16_t`, read at address `pc`. -/
def fetch_opcode (ram : Nat → Nat) (pc : Nat) : Nat :=
  ((ram pc <<< 8) ||| ram (pc + 1)) % 65536

/-- The five assignments that fill out `chip8->inst` from the fetched opcode
(chip8.c lines 336-340), with the conversions to the field types. -/
def decode (opcode : Nat) : chip8_instruction_t where
  opcode := opcode
  NNN := (opcode &&& 0x0FFF) % 65536
  NN := (opcode &&& 0x0FF) % 256
  N := (opcode &&& 0x0F) % 256
  X := ((opcode >>> 8) &&& 0x0F) % 256
  Y := ((opcode >>> 4) &&& 0x0F) % 256

/-- The call `memset(&chip8->display[0], false, sizeof(chip8->display))`: the 64*32
cells of the display are set to false. -/
def clear_display (display : Nat → Bool) : Nat → Bool :=
  fun i => if i < 64 * 32 then false else display i

/-- Source: `emulate_instruction` (emulate 1 CHIP8 instruction).  The result is `none`
when the fetch reads outside `ram`. -/
def emulate_instruction (chip8 : chip8_t) : Option chip8_t :=
  if chip8.PC + 1 < RAM_SIZE then
    -- chip8->inst.opcode = (ram[PC] << 8) | ram[PC+1]; chip8->PC += 2; fill inst
    let inst := decode (fetch_opcode chip8.ram chip8.PC)
    let c1 : chip8_t := { chip8 with PC := (chip8.PC + 2) % 65536, inst := inst }
    -- switch ((chip8->inst.opcode >> 12) & 0xF)
    let sel := (inst.opcode >>> 12) &&& 0xF
    if sel = 0x0 then
      if inst.NN = 0xE0 then
        -- 0x00E0: clear the screen
        some { c1 with display := clear_display c1.display }
      else if inst.NN = 0xEE then
        -- 0x00EE: stack_ptr--; PC = stack_ptr; stack_ptr = 0
        let sp := (c1.stack_ptr + 65535) % 65536
        some { c1 with PC := sp, stack_ptr := 0 }
      else
        some c1
    else if sel = 0x2 then
      -- 0x2NNN: stack_ptr = PC; PC = NNN; stack_ptr++
      let sp := c1.PC
      some { c1 with PC := inst.NNN, stack_ptr := (sp + 1) % 65536 }
    else if sel = 0xA then
      -- 0xANNN: I = NNN
      some { c1 with I := inst.NNN }
    else
      -- default: unimplemented or invalid opcode
      some c1
  else
    none

/-- Repeated calls: `emulate_instructions n chip8` is the machine after `n` consecutive
calls of `emulate_instruction`, when none of them reads outside `ram`. -/
def emulate_instructions : Nat → chip8_t → Option chip8_t
  | 0, chip8 => some chip8
  | n + 1, chip8 => (emulate_instruction chip8).bind (emulate_instructions n)

/-! ## init_chip8 -/

/-- Source: the array `font` of `init_chip8`, 16 glyphs of 5 bytes. -/
def font : List Nat := [
  0xF0, 0x90, 0x90, 0x90, 0xF0, -- 0
  0x20, 0x60, 0x20, 0x20, 0x70, -- 1
  0xF0, 0x10, 0xF0, 0x80, 0xF0, -- 2
  0xF0, 0x10, 0xF0, 0x10, 0xF0, -- 3
  0x90, 0x90, 0xF0, 0x10, 0x10, -- 4
  0xF0, 0x80, 0xF0, 0x10, 0xF0, -- 5
  0xF0, 0x80, 0xF0, 0x90, 0xF0, -- 6
  0xF0, 0x10, 0x20, 0x40, 0x40, -- 7
  0xF0, 0x90, 0xF0, 0x90, 0xF0, -- 8
  0xF0, 0x90, 0xF0, 0x10, 0xF0, -- 9
  0xF0, 0x90, 0xF0, 0x90, 0x90, -- A
  0xE0, 0x90, 0xE0, 0x90, 0xE0, -- B
  0xF0, 0x80, 0x80, 0x80, 0xF0, -- C
  0xE0, 0x90, 0x90, 0x90, 0xE0, -- D
  0xF0, 0x80, 0xF0, 0x80, 0xF0, -- E
  0xF0, 0x80, 0xF0, 0x80, 0x80  -- F
]

/-- The C library call `memcpy(&dst[off], src, len)` with `len` the length of `src`:
the bytes of `src` are written at `off`, `off + 1`, ... and nothing else changes. -/
def memcpy (dst : Nat → Nat) (off : Nat) (src : List Nat) : Nat → Nat :=
  fun a => if off ≤ a ∧ a < off + src.length then src.getD (a - off) 0 else dst a

/-- The C library call `fread(&dst[off], size, 1, stream)` on a stream positioned at the
start of a file whose content is `file`: it returns the number of complete items read,
here 0 or 1, together with the memory after the call.  ISO C 7.21.8.1: when `size` is
zero, `fread` returns zero and the array is unchanged; a complete item is read when the
stream holds at least `size` bytes. -/
def fread (dst : Nat → Nat) (off size : Nat) (file : List Nat) : Nat × (Nat → Nat) :=
  if size = 0 then (0, dst)
  else if size ≤ file.length then (1, memcpy dst off (file.take size))
  else (0, memcpy dst off file)

/-- Source: `init_chip8`.  The file system is the argument `rom`: `none` when
`fopen(rom_name, "rb")` fails, otherwise the bytes of the file.  The result is the
returned `bool` and the machine as the call leaves it. -/
def init_chip8 (chip8 : chip8_t) (rom_name : String) (rom : Option (List Nat)) :
    Bool × chip8_t :=
  -- Load font: memcpy(&chip8->ram[0], font, sizeof(font))
  let c1 : chip8_t := { chip8 with ram := memcpy chip8.ram 0 font }
  match rom with
  | none => (false, c1)
  | some file =>
    -- fseek to the end, ftell: the ROM size in bytes
    let rom_size := file.length
    if rom_size > ROM_MAX_SIZE then (false, c1)
    else
      -- rewind; fread(&chip8->ram[ROM_START_ADDRESS], rom_size, 1, rom) != 1
      let r := fread c1.ram ROM_START_ADDRESS rom_size file
      let c2 : chip8_t := { c1 with ram := r.2 }
      if r.1 ≠ 1 then (false, c2)
      else
        (true, { c2 with
                  state := STATE_RUNNING
                  PC := ROM_START_ADDRESS
                  rom_name := rom_name
                  stack_ptr := c2.stack 0 })

/-- Source: `chip8_t chip8 = {0};` in `main`, the machine handed to `init_chip8`. -/
def chip8_zero : chip8_t where
  state := STATE_QUIT
  ram := fun _ => 0
  display := fun _ => false
  stack := fun _ => 0
  stack_ptr := 0
  V := fun _ => 0
  I := 0
  PC := 0
  delay_timer := 0
  sound_timer := 0
  keypad := fun _ => false
  rom_name := ""
  inst := ⟨0, 0, 0, 0, 0, 0⟩

/-- The machine `main` runs for a ROM file with content `file`: the zeroed machine after
`init_chip8`. -/
def boot (file : List Nat) : chip8_t :=
  (init_chip8 chip8_zero "rom.ch8" (some file)).2

/-! ## handle_input and the run loop -/

/-- The key codes `handle_input` distinguishes (`event.key.keysym.sym`). -/
inductive SDL_Keycode where
  | SDLK_ESCAPE
  | SDLK_SPACE
  | other
  deriving DecidableEq

/-- The event types `handle_input` distinguishes (`event.type`). -/
inductive SDL_Event where
  | SDL_QUIT
  | SDL_KEYDOWN (sym : SDL_Keycode)
  | SDL_KEYUP (sym : SDL_Keycode)
  | other
  deriving DecidableEq

open SDL_Keycode SDL_Event

/-- Source: `handle_input`.  The SDL event queue is the argument `queue`; each
`SDL_PollEvent` takes its head.  The result is the machine and the events not polled.
In the source the `default:` label of the inner switch sits inside the `else` block of
the space-bar case, so that after `STATE_RUNNING -> STATE_PAUSE` control leaves the
switch and polling goes on, while the `else` block returns. -/
def handle_input (chip8 : chip8_t) : List SDL_Event → chip8_t × List SDL_Event
  | [] => (chip8, [])
  | SDL_QUIT :: queue => ({ chip8 with state := STATE_QUIT }, queue)
  | SDL_KEYDOWN SDLK_ESCAPE :: queue => ({ chip8 with state := STATE_QUIT }, queue)
  | SDL_KEYDOWN SDLK_SPACE :: queue =>
    if chip8.state = STATE_RUNNING then
      handle_input { chip8 with state := STATE_PAUSE } queue
    else
      ({ chip8 with state := STATE_RUNNING }, queue)
  | SDL_KEYDOWN SDL_Keycode.other :: queue => handle_input chip8 queue
  | SDL_KEYUP _ :: queue => handle_input chip8 queue
  | SDL_Event.other :: queue => handle_input chip8 queue

/-- One execution of the body of `while (chip8.state != STATE_QUIT)` in `main`:
`handle_input`, `continue` when paused, `emulate_instruction` (`SDL_Delay` and
`update_screen` do not touch the machine). -/
def main_loop_body (chip8 : chip8_t) (queue : List SDL_Event) :
    Option (chip8_t × List SDL_Event) :=
  let r := handle_input chip8 queue
  if r.1.state = STATE_PAUSE then some r
  else (emulate_instruction r.1).map (fun c => (c, r.2))

/-! ## Example machines -/

/-- The machine booted from the ROM `00 E0` (clear screen) with every display cell lit. -/
def lit_machine : chip8_t :=
  { boot [0x00, 0xE0] with display := fun _ => true }

/-- The machine booted from the ROM `60 05 70 03 12 04` after three instructions. -/
def ran_machine : chip8_t :=
  { boot [0x60, 0x05, 0x70, 0x03, 0x12, 0x04] with PC := 0x206, inst := decode 0x1204 }

/-! ## Arithmetic of the decode -/

theorem and_0xF (x : Nat) : x &&& 0xF = x % 16 :=
  Nat.and_pow_two_sub_one_eq_mod x 4

theorem and_0xFF (x : Nat) : x &&& 0xFF = x % 256 :=
  Nat.and_pow_two_sub_one_eq_mod x 8

theorem and_0xFFF (x : Nat) : x &&& 0xFFF = x % 4096 :=
  Nat.and_pow_two_sub_one_eq_mod x 12

theorem fetch_opcode_bytes (ram : Nat → Nat) (pc : Nat)
    (h0 : ram pc < 256) (h1 : ram (pc + 1) < 256) :
    fetch_opcode ram pc = ram pc * 256 + ram (pc + 1) := by
  unfold fetch_opcode
  have hor : 2 ^ 8 * ram pc + ram (pc + 1) = 2 ^ 8 * ram pc ||| ram (pc + 1) :=
    Nat.mul_add_lt_is_or (by simpa using h1) (ram pc)
  rw [Nat.shiftLeft_eq, Nat.mul_comm (ram pc) (2 ^ 8), ← hor]
  omega

theorem decode_opcode (w : Nat) : (decode w).opcode = w := rfl

theorem decode_NNN (w : Nat) : (decode w).NNN = w &&& 0x0FFF := by
  show (w &&& 0x0FFF) % 65536 = w &&& 0x0FFF
  rw [and_0xFFF]; omega

theorem decode_NN (w : Nat) : (decode w).NN = w &&& 0x00FF := by
  show (w &&& 0x0FF) % 256 = w &&& 0x00FF
  rw [and_0xFF]; omega

theorem decode_N (w : Nat) : (decode w).N = w &&& 0x000F := by
  show (w &&& 0x0F) % 256 = w &&& 0x000F
  rw [and_0xF]; omega

theorem decode_X (w : Nat) : (decode w).X = (w >>> 8) &&& 0xF := by
  show ((w >>> 8) &&& 0x0F) % 256 = (w >>> 8) &&& 0xF
  rw [and_0xF]; omega

theorem decode_Y (w : Nat) : (decode w).Y = (w >>> 4) &&& 0xF := by
  show ((w >>> 4) &&& 0x0F) % 256 = (w >>> 4) &&& 0xF
  rw [and_0xF]; omega

/-- In every branch of the dispatch the instruction record is the decode of the
fetched opcode. -/
theorem emulate_instruction_inst (c c1 : chip8_t) (h : emulate_instruction c = some c1) :
    c1.inst = decode (fetch_opcode c.ram c.PC) := by
  unfold emulate_instruction at h
  simp only at h
  split_ifs at h <;> simp only [Option.some.injEq] at h <;> subst h <;> rfl

/-- The fetch is inside `ram` exactly when `emulate_instruction` returns a machine. -/
theorem emulate_instruction_isSome (c : chip8_t) (h : c.PC ≤ 4094) :
    ∃ c1, emulate_instruction c = some c1 := by
  have hb : c.PC + 1 < RAM_SIZE := by unfold RAM_SIZE; omega
  unfold emulate_instruction
  simp only [hb, if_true]
  split_ifs <;> exact ⟨_, rfl⟩

/-! ## Effect of one instruction, case by case -/

theorem emulate_instruction_ram (c c1 : chip8_t) (h : emulate_instruction c = some c1) :
    c1.ram = c.ram := by
  unfold emulate_instruction at h
  simp only at h
  split_ifs at h <;> simp only [Option.some.injEq] at h <;> subst h <;> rfl

theorem emulate_instructions_ram (n : Nat) (c cn : chip8_t)
    (h : emulate_instructions n c = some cn) : cn.ram = c.ram := by
  induction n generalizing c with
  | zero =>
    simp only [emulate_instructions, Option.some.injEq] at h
    rw [h]
  | succ n ih =>
    simp only [emulate_instructions, Option.bind_eq_some] at h
    obtain ⟨c1, h1, hn⟩ := h
    rw [ih c1 hn, emulate_instruction_ram c c1 h1]

theorem sel_eq (w : Nat) : ((decode w).opcode >>> 12) &&& 0xF = w / 4096 % 16 := by
  rw [decode_opcode, and_0xF, Nat.shiftRight_eq_div_pow]

theorem NN_eq (w : Nat) : (decode w).NN = w % 256 := by
  rw [decode_NN]; exact and_0xFF w

theorem NNN_eq (w : Nat) : (decode w).NNN = w % 4096 := by
  rw [decode_NNN]; exact and_0xFFF w

/-- Opcode 0x2NNN: `stack_ptr` takes the incremented `PC` plus one, `PC` takes `NNN`. -/
theorem emulate_instruction_call (c : chip8_t) (hPC : c.PC ≤ 4094)
    (hsel : fetch_opcode c.ram c.PC / 4096 % 16 = 2) :
    emulate_instruction c =
      some { c with PC := fetch_opcode c.ram c.PC % 4096
                    stack_ptr := c.PC + 3
                    inst := decode (fetch_opcode c.ram c.PC) } := by
  have hb : c.PC + 1 < RAM_SIZE := by unfold RAM_SIZE; omega
  have h2 : (c.PC + 2) % 65536 = c.PC + 2 := by omega
  have h3 : (c.PC + 2 + 1) % 65536 = c.PC + 3 := by omega
  unfold emulate_instruction
  simp only [hb, if_true, sel_eq, hsel, NNN_eq, h2, h3]
  simp

/-- Opcode 0x00EE: `PC` takes the decremented `stack_ptr`, which is then zeroed. -/
theorem emulate_instruction_return (c : chip8_t) (hPC : c.PC ≤ 4094)
    (hw : fetch_opcode c.ram c.PC = 0x00EE) :
    emulate_instruction c =
      some { c with PC := (c.stack_ptr + 65535) % 65536
                    stack_ptr := 0
                    inst := decode 0x00EE } := by
  have hb : c.PC + 1 < RAM_SIZE := by unfold RAM_SIZE; omega
  unfold emulate_instruction
  simp only [hb, if_true, sel_eq, NN_eq, hw]
  simp

/-- Opcode 0x00E0: the display is cleared. -/
theorem emulate_instruction_clear (c : chip8_t) (hPC : c.PC ≤ 4094)
    (hw : fetch_opcode c.ram c.PC = 0x00E0) :
    emulate_instruction c =
      some { c with PC := c.PC + 2
                    display := clear_display c.display
                    inst := decode 0x00E0 } := by
  have hb : c.PC + 1 < RAM_SIZE := by unfold RAM_SIZE; omega
  have h2 : (c.PC + 2) % 65536 = c.PC + 2 := by omega
  unfold emulate_instruction
  simp only [hb, if_true, sel_eq, NN_eq, hw, h2]

/-- The branches of the dispatch that do nothing. -/
theorem emulate_instruction_default (c : chip8_t) (hPC : c.PC ≤ 4094)
    (h : (fetch_opcode c.ram c.PC / 4096 % 16 ≠ 0 ∧ fetch_opcode c.ram c.PC / 4096 % 16 ≠ 2 ∧
          fetch_opcode c.ram c.PC / 4096 % 16 ≠ 10) ∨
         (fetch_opcode c.ram c.PC / 4096 % 16 = 0 ∧ fetch_opcode c.ram c.PC % 256 ≠ 0xE0 ∧
          fetch_opcode c.ram c.PC % 256 ≠ 0xEE)) :
    emulate_instruction c =
      some { c with PC := c.PC + 2, inst := decode (fetch_opcode c.ram c.PC) } := by
  have hb : c.PC + 1 < RAM_SIZE := by unfold RAM_SIZE; omega
  have h2 : (c.PC + 2) % 65536 = c.PC + 2 := by omega
  unfold emulate_instruction
  simp only [hb, if_true, sel_eq, NN_eq, h2]
  rcases h with ⟨h0, h2, hA⟩ | ⟨h0, hE0, hEE⟩
  · simp [h0, h2, hA]
  · simp [h0, hE0, hEE]

/-! ## Memory written by init_chip8 -/

theorem font_length : font.length = 80 := rfl

theorem getD_eq_getElem? (l : List Nat) (i : Nat) (h : i < l.length) :
    l[i]? = some (l.getD i 0) := by
  rw [List.getD_eq_getElem?_getD, List.getElem?_eq_getElem h]
  rfl

theorem memcpy_inside (dst : Nat → Nat) (off : Nat) (src : List Nat) (a : Nat)
    (h1 : off ≤ a) (h2 : a < off + src.length) :
    memcpy dst off src a = src.getD (a - off) 0 := by
  unfold memcpy
  simp only [h1, h2, and_self, if_true]

theorem memcpy_below (dst : Nat → Nat) (off : Nat) (src : List Nat) (a : Nat) (h : a < off) :
    memcpy dst off src a = dst a := by
  unfold memcpy
  have : ¬ (off ≤ a ∧ a < off + src.length) := by omega
  simp only [this, if_false]

theorem memcpy_lt (dst : Nat → Nat) (off : Nat) (src : List Nat) (a : Nat)
    (hsrc : ∀ b ∈ src, b < 256) (hdst : dst a < 256) : memcpy dst off src a < 256 := by
  unfold memcpy
  split_ifs with h
  · have hi : a - off < src.length := by omega
    have hget := getD_eq_getElem? src (a - off) hi
    rw [List.getElem?_eq_getElem hi, Option.some.injEq] at hget
    rw [← hget]
    exact hsrc _ (List.getElem_mem hi)
  · exact hdst

theorem fread_below (dst : Nat → Nat) (off size : Nat) (file : List Nat) (a : Nat)
    (h : a < off) : (fread dst off size file).2 a = dst a := by
  unfold fread
  split_ifs
  · rfl
  · exact memcpy_below dst off _ a h
  · exact memcpy_below dst off _ a h

/-- On every path through `init_chip8`, `ram` below `ROM_START_ADDRESS` is the old `ram`
overwritten with the font. -/
theorem init_chip8_ram_below (c : chip8_t) (rom_name : String) (rom : Option (List Nat))
    (a : Nat) (h : a < ROM_START_ADDRESS) :
    (init_chip8 c rom_name rom).2.ram a = memcpy c.ram 0 font a := by
  unfold init_chip8
  cases rom with
  | none => rfl
  | some file =>
    simp only
    split_ifs
    · rfl
    · exact fread_below _ _ _ _ a h
    · exact fread_below _ _ _ _ a h

/-- The successful path of `init_chip8`. -/
theorem init_chip8_ok (c : chip8_t) (rom_name : String) (file : List Nat)
    (h1 : 1 ≤ file.length) (h2 : file.length ≤ 3584) :
    init_chip8 c rom_name (some file) =
      (true, { c with ram := memcpy (memcpy c.ram 0 font) ROM_START_ADDRESS file
                      state := STATE_RUNNING
                      PC := ROM_START_ADDRESS
                      rom_name := rom_name
                      stack_ptr := c.stack 0 }) := by
  have hsize : ¬ file.length > ROM_MAX_SIZE := by
    unfold ROM_MAX_SIZE RAM_SIZE ROM_START_ADDRESS; omega
  have h0 : ¬ file.length = 0 := by omega
  unfold init_chip8 fread
  simp only [hsize, h0, if_false, le_refl, if_true, List.take_length, ne_eq, not_true_eq_false]

theorem boot_ram_bytes (file : List Nat) (h1 : 1 ≤ file.length) (h2 : file.length ≤ 3584)
    (hfile : ∀ b ∈ file, b < 256) : ram_bytes (boot file) := by
  intro a _
  unfold boot
  rw [init_chip8_ok chip8_zero _ file h1 h2]
  apply memcpy_lt _ _ _ _ hfile
  apply memcpy_lt
  · decide
  · show (0 : Nat) < 256
    omega

/-! ## Fetch and decode -/

/-- Claim C1: for every machine state with PC <= 4094 (and bytes in `ram`), one call of
`emulate_instruction` returns, and afterwards `inst` is the decode of the big-endian word at
the old PC: opcode = ram[PC]*256 + ram[PC+1], NNN = opcode & 0x0FFF, NN = opcode & 0x00FF,
N = opcode & 0x000F, X = (opcode >> 8) & 0xF, Y = (opcode >> 4) & 0xF. -/
theorem emulate_instruction_decodes (c : chip8_t) (hPC : c.PC ≤ 4094) (hram : ram_bytes c) :
    ∃ c1, emulate_instruction c = some c1 ∧
      c1.inst.opcode = c.ram c.PC * 256 + c.ram (c.PC + 1) ∧
      c1.inst.NNN = c1.inst.opcode &&& 0x0FFF ∧
      c1.inst.NN = c1.inst.opcode &&& 0x00FF ∧
      c1.inst.N = c1.inst.opcode &&& 0x000F ∧
      c1.inst.X = (c1.inst.opcode >>> 8) &&& 0xF ∧
      c1.inst.Y = (c1.inst.opcode >>> 4) &&& 0xF := by
  obtain ⟨c1, h1⟩ := emulate_instruction_isSome c hPC
  have hinst := emulate_instruction_inst c c1 h1
  have h0 : c.ram c.PC < 256 := hram _ (by unfold RAM_SIZE; omega)
  have h1b : c.ram (c.PC + 1) < 256 := hram _ (by unfold RAM_SIZE; omega)
  refine ⟨c1, h1, ?_, ?_, ?_, ?_, ?_, ?_⟩
  · rw [hinst, decode_opcode, fetch_opcode_bytes _ _ h0 h1b]
  · rw [hinst, decode_opcode]; exact decode_NNN _
  · rw [hinst, decode_opcode]; exact decode_NN _
  · rw [hinst, decode_opcode]; exact decode_N _
  · rw [hinst, decode_opcode]; exact decode_X _
  · rw [hinst, decode_opcode]; exact decode_Y _

/-- Claim C1 at the machine booted from the ROM `6A 5C`: the decoded word is 0x6A5C. -/
theorem emulate_instruction_decodes_witness :
    (boot [0x6A, 0x5C]).PC ≤ 4094 ∧ ram_bytes (boot [0x6A, 0x5C]) ∧
    ∃ c1, emulate_instruction (boot [0x6A, 0x5C]) = some c1 ∧
      c1.inst.opcode = (boot [0x6A, 0x5C]).ram (boot [0x6A, 0x5C]).PC * 256
        + (boot [0x6A, 0x5C]).ram ((boot [0x6A, 0x5C]).PC + 1) ∧
      c1.inst.NNN = c1.inst.opcode &&& 0x0FFF ∧
      c1.inst.NN = c1.inst.opcode &&& 0x00FF ∧
      c1.inst.N = c1.inst.opcode &&& 0x000F ∧
      c1.inst.X = (c1.inst.opcode >>> 8) &&& 0xF ∧
      c1.inst.Y = (c1.inst.opcode >>> 4) &&& 0xF :=
  ⟨by decide, boot_ram_bytes _ (by decide) (by decide) (by decide),
   emulate_instruction_decodes (boot [0x6A, 0x5C]) (by decide)
     (boot_ram_bytes _ (by decide) (by decide) (by decide))⟩

/-! ## Call and return -/

/-- Claim C2: CALL then RETURN restores PC to the instruction after the CALL.  For every
machine state with PC = p <= 4094 whose word at p is 0x2NNN with NNN <= 4094 and whose word
at NNN is 0x00EE, two consecutive calls of `emulate_instruction` return and leave
PC = p + 2. -/
theorem call_then_return (c : chip8_t) (NNN : Nat) (hPC : c.PC ≤ 4094)
    (hcall : fetch_opcode c.ram c.PC = 0x2000 + NNN) (hNNN : NNN ≤ 4094)
    (hret : fetch_opcode c.ram NNN = 0x00EE) :
    ∃ c1 c2, emulate_instruction c = some c1 ∧ emulate_instruction c1 = some c2 ∧
      c2.PC = c.PC + 2 := by
  have hsel : fetch_opcode c.ram c.PC / 4096 % 16 = 2 := by omega
  have hnnn : fetch_opcode c.ram c.PC % 4096 = NNN := by omega
  have h1 := emulate_instruction_call c hPC hsel
  rw [hnnn] at h1
  refine ⟨_, _, h1, emulate_instruction_return _ hNNN hret, ?_⟩
  show (c.PC + 3 + 65535) % 65536 = c.PC + 2
  omega

/-- Claim C2 at the ROM `22 04 00 00 00 EE`: CALL 0x204 at 0x200, RETURN at 0x204. -/
theorem call_then_return_witness :
    (boot [0x22, 0x04, 0x00, 0x00, 0x00, 0xEE]).PC ≤ 4094 ∧
    fetch_opcode (boot [0x22, 0x04, 0x00, 0x00, 0x00, 0xEE]).ram
      (boot [0x22, 0x04, 0x00, 0x00, 0x00, 0xEE]).PC = 0x2000 + 0x204 ∧
    0x204 ≤ 4094 ∧
    fetch_opcode (boot [0x22, 0x04, 0x00, 0x00, 0x00, 0xEE]).ram 0x204 = 0x00EE ∧
    ∃ c1 c2, emulate_instruction (boot [0x22, 0x04, 0x00, 0x00, 0x00, 0xEE]) = some c1 ∧
      emulate_instruction c1 = some c2 ∧
      c2.PC = (boot [0x22, 0x04, 0x00, 0x00, 0x00, 0xEE]).PC + 2 :=
  ⟨by decide, by decide, by decide, by decide,
   call_then_return (boot [0x22, 0x04, 0x00, 0x00, 0x00, 0xEE]) 0x204
     (by decide) (by decide) (by decide) (by decide)⟩

/-! ## The ROM 60 05 70 03 12 04 -/

/-- Claim C3, the code at the ROM `60 05 70 03 12 04`: `init_chip8` succeeds on the zeroed
machine; after 2 calls of `emulate_instruction` V[0] is 0 (the claim says 8) and PC is 0x204;
after the third call PC is 0x206 and after the fourth 0x208 (the claim says 0x204 again).
The opcodes 0x6XNN, 0x7XNN and 0x1NNN fall into the `default` branch of the dispatch. -/
theorem rom_set_add_jump_run :
    (init_chip8 chip8_zero "rom.ch8" (some [0x60, 0x05, 0x70, 0x03, 0x12, 0x04])).1 = true ∧
    (boot [0x60, 0x05, 0x70, 0x03, 0x12, 0x04]).PC = 0x200 ∧
    (emulate_instructions 2 (boot [0x60, 0x05, 0x70, 0x03, 0x12, 0x04])).map
      (fun c => (c.V 0, c.PC)) = some (0, 0x204) ∧
    (emulate_instructions 3 (boot [0x60, 0x05, 0x70, 0x03, 0x12, 0x04])).map
      (fun c => (c.V 0, c.PC)) = some (0, 0x206) ∧
    (emulate_instructions 4 (boot [0x60, 0x05, 0x70, 0x03, 0x12, 0x04])).map
      (fun c => (c.V 0, c.PC)) = some (0, 0x208) := by
  decide

/-! ## The stack pointer -/

/-- Claim C4, the code at the ROM `22 02` (CALL 0x202): the machine is initialised with
`stack_ptr = 0` and `PC = 0x200`, and after one call of `emulate_instruction` `stack_ptr`
is 0x203 = 515, above 12: the call stores the return address in `stack_ptr` itself. -/
theorem call_sets_stack_ptr_to_address :
    (init_chip8 chip8_zero "rom.ch8" (some [0x22, 0x02])).1 = true ∧
    (boot [0x22, 0x02]).stack_ptr = 0 ∧
    (boot [0x22, 0x02]).PC = 0x200 ∧
    (emulate_instructions 1 (boot [0x22, 0x02])).map (fun c => c.stack_ptr) = some 515 := by
  decide

/-! ## Loading the ROM -/

/-- Claim C5 as stated fails at the empty ROM (L = 0): `fread` of an item of size 0
returns 0, which is not 1, and `init_chip8` returns false. -/
theorem init_chip8_empty_rom_fails :
    ([] : List Nat).length ≤ 3584 ∧
    (init_chip8 chip8_zero "empty.ch8" (some [])).1 = false := by
  decide

/-- Claim C5, amended: for every ROM byte sequence of length 1 <= L <= 3584, `init_chip8`
succeeds and afterwards ram[0x200 + i] is byte i of the ROM for every i < L, and every byte
of ram in [0x050, 0x200) is the same as before the call. -/
theorem init_chip8_loads_rom (c : chip8_t) (rom_name : String) (file : List Nat)
    (h1 : 1 ≤ file.length) (h2 : file.length ≤ 3584) :
    (init_chip8 c rom_name (some file)).1 = true ∧
    (∀ i, i < file.length →
      file[i]? = some ((init_chip8 c rom_name (some file)).2.ram (0x200 + i))) ∧
    (∀ a, 0x050 ≤ a → a < 0x200 → (init_chip8 c rom_name (some file)).2.ram a = c.ram a) := by
  rw [init_chip8_ok c rom_name file h1 h2]
  refine ⟨rfl, ?_, ?_⟩
  · intro i hi
    show file[i]? = some (memcpy (memcpy c.ram 0 font) ROM_START_ADDRESS file (0x200 + i))
    rw [memcpy_inside _ _ _ _ (by unfold ROM_START_ADDRESS; omega)
      (by unfold ROM_START_ADDRESS; omega)]
    have : 0x200 + i - ROM_START_ADDRESS = i := by unfold ROM_START_ADDRESS; omega
    rw [this]
    exact getD_eq_getElem? file i hi
  · intro a ha1 ha2
    show memcpy (memcpy c.ram 0 font) ROM_START_ADDRESS file a = c.ram a
    rw [memcpy_below _ _ _ _ (by unfold ROM_START_ADDRESS; omega)]
    unfold memcpy
    have : ¬ (0 ≤ a ∧ a < 0 + font.length) := by rw [font_length]; omega
    simp only [this, if_false]

/-- Claim C5, amended, at the three-byte ROM `A1 23 45` loaded into the zeroed machine. -/
theorem init_chip8_loads_rom_witness :
    1 ≤ [0xA1, 0x23, 0x45].length ∧ [0xA1, 0x23, 0x45].length ≤ 3584 ∧
    (init_chip8 chip8_zero "rom.ch8" (some [0xA1, 0x23, 0x45])).1 = true ∧
    (∀ i, i < [0xA1, 0x23, 0x45].length →
      [0xA1, 0x23, 0x45][i]? =
        some ((init_chip8 chip8_zero "rom.ch8" (some [0xA1, 0x23, 0x45])).2.ram (0x200 + i))) ∧
    (∀ a, 0x050 ≤ a → a < 0x200 →
      (init_chip8 chip8_zero "rom.ch8" (some [0xA1, 0x23, 0x45])).2.ram a = chip8_zero.ram a) :=
  ⟨by decide, by decide,
   init_chip8_loads_rom chip8_zero "rom.ch8" [0xA1, 0x23, 0x45] (by decide) (by decide)⟩

/-! ## Clear screen -/

/-- Claim C6: opcode 0x00E0 clears the framebuffer.  For every machine state with
PC <= 4094 whose word at PC is 0x00E0, `emulate_instruction` returns and afterwards every
one of the 64*32 = 2048 display cells is unlit. -/
theorem clear_screen_unlit (c : chip8_t) (hPC : c.PC ≤ 4094)
    (hw : fetch_opcode c.ram c.PC = 0x00E0) :
    ∃ c1, emulate_instruction c = some c1 ∧ ∀ i, i < 2048 → c1.display i = false := by
  refine ⟨_, emulate_instruction_clear c hPC hw, ?_⟩
  intro i hi
  show clear_display c.display i = false
  unfold clear_display
  have : i < 64 * 32 := by omega
  simp only [this, if_true]

/-- Claim C6 at a machine whose display is fully lit before the instruction. -/
theorem clear_screen_unlit_witness :
    lit_machine.PC ≤ 4094 ∧ fetch_opcode lit_machine.ram lit_machine.PC = 0x00E0 ∧
    lit_machine.display 7 = true ∧
    ∃ c1, emulate_instruction lit_machine = some c1 ∧ ∀ i, i < 2048 → c1.display i = false :=
  ⟨by decide, by decide, by decide,
   clear_screen_unlit lit_machine (by decide) (by decide)⟩

/-! ## The run loop -/

/-- Claim C8, the code at the ROM `A1 23` with a pending SDL_QUIT event (and likewise a
pending Escape key press): `handle_input` sets STATE_QUIT and leaves PC = 0x200, I = 0, and
the same iteration of the run loop then executes the instruction 0xA123, ending with
PC = 0x202, I = 0x123 and inst.opcode = 0xA123.  The loop body tests only STATE_PAUSE
before `emulate_instruction`. -/
theorem run_loop_emulates_after_quit :
    (boot [0xA1, 0x23]).state = STATE_RUNNING ∧
    (let r := (handle_input (boot [0xA1, 0x23]) [SDL_QUIT]).1
     (r.state, r.PC, r.I, r.inst.opcode)) = (STATE_QUIT, 0x200, 0, 0) ∧
    (main_loop_body (boot [0xA1, 0x23]) [SDL_QUIT]).map
      (fun r => (r.1.state, r.1.PC, r.1.I, r.1.inst.opcode))
      = some (STATE_QUIT, 0x202, 0x123, 0xA123) ∧
    (let r := (handle_input (boot [0xA1, 0x23]) [SDL_KEYDOWN SDLK_ESCAPE]).1
     (r.state, r.PC, r.I, r.inst.opcode)) = (STATE_QUIT, 0x200, 0, 0) ∧
    (main_loop_body (boot [0xA1, 0x23]) [SDL_KEYDOWN SDLK_ESCAPE]).map
      (fun r => (r.1.state, r.1.PC, r.1.I, r.1.inst.opcode))
      = some (STATE_QUIT, 0x202, 0x123, 0xA123) := by
  decide

/-! ## The font -/

/-- Claim C9: font immutability.  After a successful `init_chip8` the 80 bytes
ram[0x000..0x050) are the glyph table `font`, glyph d occupying ram[5*d .. 5*d+4], and
they are still the table in every state reached afterwards by any number `n` of calls of
`emulate_instruction` (`n = 0` is the state right after init). -/
theorem font_immutable (c0 : chip8_t) (rom_name : String) (rom : Option (List Nat))
    (c : chip8_t) (hinit : init_chip8 c0 rom_name rom = (true, c))
    (n : Nat) (cn : chip8_t) (hrun : emulate_instructions n c = some cn) :
    (∀ a, a < 0x050 → font[a]? = some (cn.ram a)) ∧
    (∀ d, d < 16 → ∀ k, k < 5 → font[5 * d + k]? = some (cn.ram (5 * d + k))) := by
  have hfont : ∀ a, a < 0x050 → font[a]? = some (cn.ram a) := by
    intro a ha
    have hc : c = (init_chip8 c0 rom_name rom).2 := by rw [hinit]
    rw [emulate_instructions_ram n c cn hrun, hc,
      init_chip8_ram_below c0 rom_name rom a (by unfold ROM_START_ADDRESS; omega),
      memcpy_inside _ _ _ _ (Nat.zero_le a) (by rw [font_length]; omega)]
    exact getD_eq_getElem? font (a - 0) (by rw [font_length]; omega)
  exact ⟨hfont, fun d hd k hk => hfont (5 * d + k) (by omega)⟩

/-- Claim C9 at the ROM `60 05 70 03 12 04`, three instructions after init. -/
theorem font_immutable_witness :
    init_chip8 chip8_zero "rom.ch8" (some [0x60, 0x05, 0x70, 0x03, 0x12, 0x04])
      = (true, boot [0x60, 0x05, 0x70, 0x03, 0x12, 0x04]) ∧
    emulate_instructions 3 (boot [0x60, 0x05, 0x70, 0x03, 0x12, 0x04]) = some ran_machine ∧
    (∀ a, a < 0x050 → font[a]? = some (ran_machine.ram a)) ∧
    (∀ d, d < 16 → ∀ k, k < 5 → font[5 * d + k]? = some (ran_machine.ram (5 * d + k))) :=
  ⟨rfl, rfl,
   font_immutable chip8_zero "rom.ch8" (some [0x60, 0x05, 0x70, 0x03, 0x12, 0x04])
     (boot [0x60, 0x05, 0x70, 0x03, 0x12, 0x04]) rfl 3 ran_machine rfl⟩

/-! ## Unrecognised opcodes -/

/-- Claim C10: unrecognised opcodes are a silent no-op.  For every machine state with
PC <= 4094 whose fetched opcode has a high nibble other than 0x0, 0x2 and 0xA, or has high
nibble 0x0 and a low byte other than 0xE0 and 0xEE, `emulate_instruction` returns and changes
only PC (to PC + 2) and inst (to the decode of the opcode); ram, display, stack, stack_ptr,
V, I, delay_timer, sound_timer, keypad, state (and rom_name) are unchanged. -/
theorem unrecognised_opcode_noop (c : chip8_t) (hPC : c.PC ≤ 4094)
    (hop : ((fetch_opcode c.ram c.PC >>> 12) &&& 0xF ≠ 0x0 ∧
            (fetch_opcode c.ram c.PC >>> 12) &&& 0xF ≠ 0x2 ∧
            (fetch_opcode c.ram c.PC >>> 12) &&& 0xF ≠ 0xA) ∨
           ((fetch_opcode c.ram c.PC >>> 12) &&& 0xF = 0x0 ∧
            fetch_opcode c.ram c.PC &&& 0xFF ≠ 0xE0 ∧
            fetch_opcode c.ram c.PC &&& 0xFF ≠ 0xEE)) :
    ∃ c1, emulate_instruction c = some c1 ∧
      c1.PC = c.PC + 2 ∧ c1.inst = decode (fetch_opcode c.ram c.PC) ∧
      c1.ram = c.ram ∧ c1.display = c.display ∧ c1.stack = c.stack ∧
      c1.stack_ptr = c.stack_ptr ∧ c1.V = c.V ∧ c1.I = c.I ∧
      c1.delay_timer = c.delay_timer ∧ c1.sound_timer = c.sound_timer ∧
      c1.keypad = c.keypad ∧ c1.state = c.state ∧ c1.rom_name = c.rom_name := by
  rw [and_0xF, and_0xFF, Nat.shiftRight_eq_div_pow] at hop
  exact ⟨_, emulate_instruction_default c hPC hop,
    rfl, rfl, rfl, rfl, rfl, rfl, rfl, rfl, rfl, rfl, rfl, rfl, rfl⟩

/-- Claim C10 at the ROM `60 05`: opcode 0x6005 has high nibble 6. -/
theorem unrecognised_opcode_noop_witness :
    (boot [0x60, 0x05]).PC ≤ 4094 ∧
    (((fetch_opcode (boot [0x60, 0x05]).ram (boot [0x60, 0x05]).PC >>> 12) &&& 0xF ≠ 0x0 ∧
      (fetch_opcode (boot [0x60, 0x05]).ram (boot [0x60, 0x05]).PC >>> 12) &&& 0xF ≠ 0x2 ∧
      (fetch_opcode (boot [0x60, 0x05]).ram (boot [0x60, 0x05]).PC >>> 12) &&& 0xF ≠ 0xA) ∨
     ((fetch_opcode (boot [0x60, 0x05]).ram (boot [0x60, 0x05]).PC >>> 12) &&& 0xF = 0x0 ∧
      fetch_opcode (boot [0x60, 0x05]).ram (boot [0x60, 0x05]).PC &&& 0xFF ≠ 0xE0 ∧
      fetch_opcode (boot [0x60, 0x05]).ram (boot [0x60, 0x05]).PC &&& 0xFF ≠ 0xEE)) ∧
    ∃ c1, emulate_instruction (boot [0x60, 0x05]) = some c1 ∧
      c1.PC = (boot [0x60, 0x05]).PC + 2 ∧
      c1.inst = decode (fetch_opcode (boot [0x60, 0x05]).ram (boot [0x60, 0x05]).PC) ∧
      c1.ram = (boot [0x60, 0x05]).ram ∧ c1.display = (boot [0x60, 0x05]).display ∧
      c1.stack = (boot [0x60, 0x05]).stack ∧ c1.stack_ptr = (boot [0x60, 0x05]).stack_ptr ∧
      c1.V = (boot [0x60, 0x05]).V ∧ c1.I = (boot [0x60, 0x05]).I ∧
      c1.delay_timer = (boot [0x60, 0x05]).delay_timer ∧
      c1.sound_timer = (boot [0x60, 0x05]).sound_timer ∧
      c1.keypad = (boot [0x60, 0x05]).keypad ∧ c1.state = (boot [0x60, 0x05]).state ∧
      c1.rom_name = (boot [0x60, 0x05]).rom_name :=
  ⟨by decide, by decide,
   unrecognised_opcode_noop (boot [0x60, 0x05]) (by decide) (by decide)⟩

end Chip8
